import Mathlib

/-!
Verification of the AVI MJPEG conversion module
(source/blender/io/avi/intern/avi_mjpeg.cc).

Byte buffers are modelled as total functions from byte index to byte
value, and each memcpy performed by the code is modelled by memcpyBytes.
Arithmetic on the 64-bit size_t values of the code is modelled on Nat,
with reduction modulo 2 to the 64 made explicit wherever the code can
wrap (sizetSub).  The underlying libjpeg codec is out of scope of the
module and is treated as a black box: decode passes are parameterised by
the stream information the codec reports, and the encode pipeline is
parameterised by the number of free destination bytes the codec leaves
at teardown.
-/

namespace AviMjpeg

/-- Modulus of 64-bit size_t arithmetic, 2 to the power 64. -/
def SIZE_T_MOD : Nat := 18446744073709551616

/-- Model of the size_t subtraction a - b, which wraps modulo 2 to the 64. -/
def sizetSub (a b : Nat) : Nat :=
  (a + (SIZE_T_MOD - b % SIZE_T_MOD)) % SIZE_T_MOD

/-- Model of memcpy(dst + dstOff, frm + fromOff, len) on byte buffers: bytes
in the destination range take the corresponding source bytes, all other
bytes keep the destination value. -/
def memcpyBytes (dst frm : Nat → Nat) (dstOff fromOff len : Nat) : Nat → Nat :=
  fun k => if dstOff ≤ k ∧ k < dstOff + len then frm (fromOff + (k - dstOff)) else dst k

/-- Source row read by iteration i of the interlace loop, which writes
output row i: row i / 2 + height / 2 when i is odd (the test on the low
bit of i), row i / 2 otherwise. -/
def interlaceRow (i height : Nat) : Nat :=
  if i % 2 = 1 then i / 2 + height / 2 else i / 2

/-- Destination row written by iteration i of the deinterlace loop, which
reads input row i: row i / 2 + height / 2 when i % 2 equals the odd flag,
row i / 2 otherwise. -/
def deinterlaceRow (odd i height : Nat) : Nat :=
  if i % 2 = odd then i / 2 + height / 2 else i / 2

/-- First n iterations of the loop of interlace, rowstride rs: iteration i
copies rs bytes from source row interlaceRow i height to output row i. -/
def interlaceAux (dst frm : Nat → Nat) (rs height : Nat) : Nat → Nat → Nat
  | 0 => dst
  | n + 1 =>
    memcpyBytes (interlaceAux dst frm rs height n) frm
      (n * rs) (interlaceRow n height * rs) rs

/-- Model of interlace(dst, from, width, height): rowstride is width * 3
and the loop runs for i = 0 .. height - 1. -/
def interlace (dst frm : Nat → Nat) (width height : Nat) : Nat → Nat :=
  interlaceAux dst frm (width * 3) height height

/-- First n iterations of the loop of deinterlace, rowstride rs: iteration
i copies rs bytes from input row i to output row deinterlaceRow odd i
height. -/
def deinterlaceAux (odd : Nat) (dst frm : Nat → Nat) (rs height : Nat) : Nat → Nat → Nat
  | 0 => dst
  | n + 1 =>
    memcpyBytes (deinterlaceAux odd dst frm rs height n) frm
      (deinterlaceRow odd n height * rs) (n * rs) rs

/-- Model of deinterlace(odd, dst, from, width, height): rowstride is
width * 3 and the loop runs for i = 0 .. height - 1. -/
def deinterlace (odd : Nat) (dst frm : Nat → Nat) (width height : Nat) : Nat → Nat :=
  deinterlaceAux odd dst frm (width * 3) height height

/- Helper lemmas about row-aligned byte ranges. -/

theorem row_byte_lt (y n b rs : Nat) (hy : y < n) (hb : b < rs) :
    y * rs + b < n * rs := by
  have h1 : y * rs + b < (y + 1) * rs := by
    rw [Nat.succ_mul]
    exact Nat.add_lt_add_left hb _
  exact Nat.lt_of_lt_of_le h1 (Nat.mul_le_mul_right rs hy)

theorem row_disjoint (r1 r2 b rs : Nat) (hne : r1 ≠ r2) (hb : b < rs) :
    ¬(r2 * rs ≤ r1 * rs + b ∧ r1 * rs + b < r2 * rs + rs) := by
  rintro ⟨h1, h2⟩
  rcases Nat.lt_or_ge r1 r2 with h | h
  · exact absurd h1 (Nat.not_le.mpr (row_byte_lt r1 r2 b rs h hb))
  · have hlt : r2 < r1 := Nat.lt_of_le_of_ne h (Ne.symm hne)
    have h3 : (r2 + 1) * rs ≤ r1 * rs := Nat.mul_le_mul_right rs hlt
    rw [Nat.succ_mul] at h3
    have := Nat.le_trans h3 (Nat.le_add_right (r1 * rs) b)
    exact absurd h2 (Nat.not_lt.mpr this)

/-- Reading the result of the interlace loop inside row y gives the byte
of the source row selected by interlaceRow. -/
theorem interlaceAux_read (dst frm : Nat → Nat) (rs height : Nat) :
    ∀ n y b, y < n → b < rs →
      interlaceAux dst frm rs height n (y * rs + b) =
        frm (interlaceRow y height * rs + b) := by
  intro n
  induction n with
  | zero => intro y b hy _; exact absurd hy (Nat.not_lt_zero y)
  | succ m ih =>
    intro y b hy hb
    by_cases hym : y = m
    · subst hym
      simp only [interlaceAux, memcpyBytes]
      have h1 : y * rs ≤ y * rs + b := Nat.le_add_right _ _
      have h2 : y * rs + b < y * rs + rs := Nat.add_lt_add_left hb _
      rw [if_pos ⟨h1, h2⟩, Nat.add_sub_cancel_left]
    · have hy' : y < m := Nat.lt_of_le_of_ne (Nat.lt_succ_iff.mp hy) hym
      simp only [interlaceAux, memcpyBytes]
      rw [if_neg, ih y b hy' hb]
      rintro ⟨hc, -⟩
      exact absurd hc (Nat.not_le.mpr (row_byte_lt y m b rs hy' hb))

/-- Reading the result of the deinterlace loop inside the destination row
of iteration i gives the byte of input row i, provided no later iteration
writes the same destination row. -/
theorem deinterlaceAux_read (odd : Nat) (dst frm : Nat → Nat) (rs height : Nat) :
    ∀ n i b, i < n → b < rs →
      (∀ j, i < j → j < n → deinterlaceRow odd j height ≠ deinterlaceRow odd i height) →
      deinterlaceAux odd dst frm rs height n (deinterlaceRow odd i height * rs + b) =
        frm (i * rs + b) := by
  intro n
  induction n with
  | zero => intro i b hi _ _; exact absurd hi (Nat.not_lt_zero i)
  | succ m ih =>
    intro i b hi hb hlast
    by_cases him : i = m
    · subst him
      simp only [deinterlaceAux, memcpyBytes]
      have h1 : deinterlaceRow odd i height * rs ≤ deinterlaceRow odd i height * rs + b :=
        Nat.le_add_right _ _
      have h2 : deinterlaceRow odd i height * rs + b < deinterlaceRow odd i height * rs + rs :=
        Nat.add_lt_add_left hb _
      rw [if_pos ⟨h1, h2⟩, Nat.add_sub_cancel_left]
    · have hi' : i < m := Nat.lt_of_le_of_ne (Nat.lt_succ_iff.mp hi) him
      have hne : deinterlaceRow odd m height ≠ deinterlaceRow odd i height :=
        hlast m hi' (Nat.lt_succ_self m)
      simp only [deinterlaceAux, memcpyBytes]
      rw [if_neg (row_disjoint (deinterlaceRow odd i height) (deinterlaceRow odd m height)
        b rs (Ne.symm hne) hb)]
      exact ih i b hi' hb (fun j hj1 hj2 => hlast j hj1 (Nat.lt_succ_of_lt hj2))

/-- The destination row map of deinterlace is injective on the rows of the
frame whenever the height is even or the odd flag is 0. -/
theorem deinterlaceRow_inj (odd height i j : Nat)
    (hodd : odd = 0 ∨ odd = 1) (hcase : height % 2 = 0 ∨ odd = 0)
    (hi : i < height) (hj : j < height)
    (heq : deinterlaceRow odd i height = deinterlaceRow odd j height) : i = j := by
  unfold deinterlaceRow at heq
  rcases hodd with rfl | rfl
  · by_cases h1 : i % 2 = 0 <;> by_cases h2 : j % 2 = 0 <;>
      simp only [h1, h2, if_pos, if_neg, if_true, if_false] at heq <;> omega
  · have hh : height % 2 = 0 := by omega
    by_cases h1 : i % 2 = 1 <;> by_cases h2 : j % 2 = 1 <;>
      simp only [h1, h2, if_pos, if_neg, if_true, if_false] at heq <;> omega

/-- End-of-image marker code JPEG_EOI of the codec headers, 0xD9. -/
def JPEG_EOI : Nat := 0xD9

/-- Application marker code JPEG_APP0 of the codec headers, 0xE0. -/
def JPEG_APP0 : Nat := 0xE0

/-- Comment marker code JPEG_COM of the codec headers, 0xFE. -/
def JPEG_COM : Nat := 0xFE

/-- Value of the shared numbytes counter after jpegmemdestmgr_build wraps a
destination buffer of the given capacity: the counter is set to the
capacity. -/
def jpegmemdestmgr_build_numbytes (bufsize : Nat) : Nat := bufsize

/-- Value of the shared numbytes counter after jpegmemdestmgr_term_destination
runs with the given counter value and free_in_buffer: the counter is
decremented by free_in_buffer in size_t arithmetic. -/
def jpegmemdestmgr_term_destination_numbytes (numbytes free_in_buffer : Nat) : Nat :=
  sizetSub numbytes free_in_buffer

/-- Value of the shared numbytes counter after jpegmemsrcmgr_build wraps a
source buffer of the given capacity: the counter is set to the capacity. -/
def jpegmemsrcmgr_build_numbytes (bufsize : Nat) : Nat := bufsize

/-- Value of the shared numbytes counter after jpegmemsrcmgr_term_source runs
with the given counter value and bytes_in_buffer: the counter is
decremented by bytes_in_buffer in size_t arithmetic. -/
def jpegmemsrcmgr_term_source_numbytes (numbytes bytes_in_buffer : Nat) : Nat :=
  sizetSub numbytes bytes_in_buffer

/-- Trace of the shared numbytes counter through a two-field Decode_JPEG
run, as a function of the buffer capacity and of the bytes_in_buffer each
source adapter holds at its teardown.  The result collects the counter
value observed at the first teardown, the capacity the second adapter is
built with (bufsize - numbytes), and the counter value observed at the
second teardown.  The statement numbytes = 0 that Decode_JPEG executes
right after building the second adapter overwrites the counter, so the
second teardown decrements from 0. -/
def Decode_JPEG_numbytes (bufsize rem1 rem2 : Nat) : Nat × Nat × Nat :=
  let t1 := jpegmemsrcmgr_term_source_numbytes (jpegmemsrcmgr_build_numbytes bufsize) rem1
  let cap2 := sizetSub bufsize t1
  let t2 := jpegmemsrcmgr_term_source_numbytes 0 rem2
  (t1, cap2, t2)

/-- State of the decode source adapter: the memory holding the input
bytes, the cursor next_input_byte modelled as a byte offset into that
memory, and the count bytes_in_buffer of bytes remaining. -/
structure jpeg_source_mgr where
  buf : Nat → Nat
  next_input_byte : Nat
  bytes_in_buffer : Nat

/-- Single byte store buf[i] = v. -/
def bufWrite (buf : Nat → Nat) (i v : Nat) : Nat → Nat :=
  fun k => if k = i then v else buf k

/-- Model of jpegmemsrcmgr_fill_input_buffer: step the cursor back 2
bytes, store 0xFF and JPEG_EOI there, set bytes_in_buffer to 2, and
return.  The first Bool of the result records that the recoverable
warning WARNMS(dinfo, JWRN_JPEG_EOF) was emitted (no fatal error path is
taken), the second Bool is the return value of the handler. -/
def jpegmemsrcmgr_fill_input_buffer (s : jpeg_source_mgr) :
    jpeg_source_mgr × Bool × Bool :=
  let bufPos := s.next_input_byte - 2
  let b1 := bufWrite s.buf bufPos 0xFF
  let b2 := bufWrite b1 (bufPos + 1) JPEG_EOI
  (⟨b2, bufPos, 2⟩, true, true)

/-- Model of jpegmemsrcmgr_skip_input_data on a cursor offset and a
remaining count.  skip_count is the long argument; comparing it against
the size_t field bytes_in_buffer converts it to size_t (reduction modulo
2 to the 64), after which the clamped count is added to the cursor and
subtracted from the remaining count. -/
def jpegmemsrcmgr_skip_input_data (next_input_byte bytes_in_buffer : Nat)
    (skip_count : Int) : Nat × Nat :=
  let scU : Nat := (skip_count % (SIZE_T_MOD : Int)).toNat
  let sc : Nat := if bytes_in_buffer < scU then bytes_in_buffer else scU
  (next_input_byte + sc, bytes_in_buffer - sc)

/-- Information one decompression pass of the black-box codec reports:
the output dimensions it announces after the header is read, the
bytes_in_buffer its source adapter holds at teardown, and the decoded
scanlines (row index, then byte within the row). -/
structure JStreamInfo where
  output_width : Nat
  output_components : Nat
  output_height : Nat
  remaining : Nat
  row : Nat → Nat → Nat

/-- First n iterations of a scanline loop: iteration y stores rs bytes of
row y at offset start + y * rs of the output buffer. -/
def writeScanlines (out : Nat → Nat) (start rs : Nat) (row : Nat → Nat → Nat) :
    Nat → Nat → Nat
  | 0 => out
  | n + 1 =>
    memcpyBytes (writeScanlines out start rs row n) (row n) (start + n * rs) 0 rs

/-- Model of Decode_JPEG.  The codec is a black box mapped over the input:
given the offset of the embedded stream inside inBuffer and the capacity
of the source adapter built over it, it reports a JStreamInfo.  The model
returns the final output buffer, the return value, and the list of source
adapters built as (offset, capacity) pairs.  After the first pass the
first field occupies output_height rows of rowstride output_width *
output_components; when that reported height is below the requested
height, a second adapter is built at the offset numbytes holds after the
first teardown, and the second pass continues writing where the first
stopped. -/
def Decode_JPEG (codec : Nat → Nat → JStreamInfo) (outBuffer : Nat → Nat)
    (width height bufsize : Nat) : (Nat → Nat) × Nat × List (Nat × Nat) :=
  let s1 := codec 0 bufsize
  let rs1 := s1.output_width * s1.output_components
  let out1 := writeScanlines outBuffer 0 rs1 s1.row s1.output_height
  let numbytes1 := sizetSub bufsize s1.remaining
  if height ≤ s1.output_height then
    (out1, 0, [(0, bufsize)])
  else
    let cap2 := sizetSub bufsize numbytes1
    let s2 := codec numbytes1 cap2
    let rs2 := s2.output_width * s2.output_components
    let out2 := writeScanlines out1 (s1.output_height * rs1) rs2 s2.row s2.output_height
    (out2, 1, [(0, bufsize), (numbytes1, cap2)])

/-- Operations Compress_JPEG drives the codec through, in order. -/
inductive JpegOp where
  | startCompress : JpegOp
  | writeMarker : Nat → List Nat → JpegOp
  | writeScanline : Nat → JpegOp
  | finishCompress : JpegOp

/-- Marker buffer as filled for the application marker: bytes A, V, I, 1,
0 (ASCII codes 65, 86, 73, 49, 0), then the while loop pads with 32 up to
index 59. -/
def avi1_marker : List Nat :=
  let m := [65, 86, 73, 49, 0]
  m ++ List.replicate (60 - m.length) 32

/-- Marker buffer as refilled for the comment marker: the while loop
stores 0 at indices 0 up to 59. -/
def com_marker : List Nat := List.replicate 60 0

/-- Operation trace of Compress_JPEG: start compression, write the
application marker and the comment marker (60 bytes each), write the
height scanlines at successive offsets of rowstride width * 3 into the
input buffer, finish. -/
def Compress_JPEG_ops (quality width height : Nat) : List JpegOp :=
  [JpegOp.startCompress,
   JpegOp.writeMarker JPEG_APP0 avi1_marker,
   JpegOp.writeMarker JPEG_COM com_marker]
  ++ (List.range height).map (fun y => JpegOp.writeScanline (y * (width * 3)))
  ++ [JpegOp.finishCompress]

/-- Arguments of one invocation of Compress_JPEG made by the encode entry
point: the quality passed, the byte offset inside the destination buffer
where the output is written, the byte offset inside the pixel buffer the
scanlines are read from, the width and height passed, and the capacity of
the destination adapter. -/
structure CompressCall where
  quality : Nat
  outOff : Nat
  inOff : Nat
  width : Nat
  height : Nat
  cap : Nat
  deriving DecidableEq

/-- Model of avi_converter_to_mjpeg.  comp is the black-box compression:
for a given invocation it yields the free_in_buffer the destination
adapter holds at teardown, so the numbytes counter after the call follows
from the destination adapter model.  The result is the final value stored
into the in/out size parameter, the list of Compress_JPEG invocations,
and the pixel buffer those invocations read from (the deinterlaced buffer
on the interlaced path, the caller buffer otherwise).  W, H and Q are the
Width, Height and Quality fields of the movie descriptor, odd_fields its
field-order flag and il its interlace flag. -/
def avi_converter_to_mjpeg (comp : CompressCall → Nat) (W H Q odd_fields : Nat)
    (il : Bool) (bufsize : Nat) (buffer buf : Nat → Nat) :
    Nat × List CompressCall × (Nat → Nat) :=
  if !il then
    let c : CompressCall := ⟨Q / 100, 0, 0, W, H, bufsize⟩
    let nb := jpegmemdestmgr_term_destination_numbytes
      (jpegmemdestmgr_build_numbytes bufsize) (comp c)
    (nb, [c], buffer)
  else
    let fieldBuf := deinterlace odd_fields buf buffer W H
    let c1 : CompressCall := ⟨Q / 100, 0, 0, W, H / 2, bufsize / 2⟩
    let n1 := jpegmemdestmgr_term_destination_numbytes
      (jpegmemdestmgr_build_numbytes (bufsize / 2)) (comp c1)
    let c2 : CompressCall := ⟨Q / 100, n1, H / 2 * W * 3, W, H / 2, bufsize / 2⟩
    let n2 := jpegmemdestmgr_term_destination_numbytes
      (jpegmemdestmgr_build_numbytes (bufsize / 2)) (comp c2)
    (n1 + n2, [c1, c2], fieldBuf)

/-- Concrete two-stream codec used to exercise Decode_JPEG on a concrete
input: the stream at offset 0 reports a 1 by 1 RGB field with 4 bytes
left over, the stream found after it reports another 1 by 1 RGB field
consuming everything. -/
def testCodec : Nat → Nat → JStreamInfo := fun off _ =>
  if off = 0 then ⟨1, 3, 1, 4, fun _ b => 100 + b⟩ else ⟨1, 3, 1, 0, fun _ b => 200 + b⟩

/-- Concrete compression black box used to exercise the encode entry
point on a concrete input: every destination adapter is left with 0 free
bytes, i.e. each invocation fills its capacity. -/
def testComp : CompressCall → Nat := fun _ => 0

/- Helper lemmas about the adapter counter and scanline loops. -/

theorem sizetSub_of_le (a b : Nat) (hb : b ≤ a) (ha : a < SIZE_T_MOD) :
    sizetSub a b = a - b := by
  unfold sizetSub SIZE_T_MOD
  unfold SIZE_T_MOD at ha
  omega

theorem writeScanlines_read (out : Nat → Nat) (start rs : Nat) (row : Nat → Nat → Nat) :
    ∀ n y b, y < n → b < rs →
      writeScanlines out start rs row n (start + y * rs + b) = row y b := by
  intro n
  induction n with
  | zero => intro y b hy _; exact absurd hy (Nat.not_lt_zero y)
  | succ m ih =>
    intro y b hy hb
    by_cases hym : y = m
    · subst hym
      simp only [writeScanlines, memcpyBytes]
      have h1 : start + y * rs ≤ start + y * rs + b := Nat.le_add_right _ _
      have h2 : start + y * rs + b < start + y * rs + rs := Nat.add_lt_add_left hb _
      rw [if_pos ⟨h1, h2⟩, Nat.add_sub_cancel_left, Nat.zero_add]
    · have hy' : y < m := Nat.lt_of_le_of_ne (Nat.lt_succ_iff.mp hy) hym
      simp only [writeScanlines, memcpyBytes]
      rw [if_neg, ih y b hy' hb]
      rintro ⟨hc, -⟩
      have h3 : start + (y * rs + b) < start + m * rs :=
        Nat.add_lt_add_left (row_byte_lt y m b rs hy' hb) start
      rw [Nat.add_assoc] at hc
      exact absurd hc (Nat.not_le.mpr h3)

theorem writeScanlines_lower (out : Nat → Nat) (start rs : Nat) (row : Nat → Nat → Nat) :
    ∀ n k, k < start → writeScanlines out start rs row n k = out k := by
  intro n
  induction n with
  | zero => intro k _; rfl
  | succ m ih =>
    intro k hk
    simp only [writeScanlines, memcpyBytes]
    rw [if_neg, ih k hk]
    rintro ⟨hc, -⟩
    exact absurd (Nat.le_trans (Nat.le_add_right start (m * rs)) hc) (Nat.not_le.mpr hk)

/-- Claim C10: for every width and height (odd heights included) and every
loop index i < height, the row indices computed by interlace and
deinterlace, namely i, i / 2 and i / 2 + height / 2 as captured by
interlaceRow and deinterlaceRow for any odd flag, lie in [0, height), so
every per-row copy performed by either transform reads and writes
entirely within the height * width * 3 byte source and destination
buffers. -/
theorem C10_row_indices_in_bounds (width height i odd : Nat) (hi : i < height) :
    interlaceRow i height < height ∧ deinterlaceRow odd i height < height ∧
    ∀ b, b < width * 3 →
      i * (width * 3) + b < height * (width * 3) ∧
      interlaceRow i height * (width * 3) + b < height * (width * 3) ∧
      deinterlaceRow odd i height * (width * 3) + b < height * (width * 3) := by
  have h1 : interlaceRow i height < height := by
    unfold interlaceRow; split <;> omega
  have h2 : deinterlaceRow odd i height < height := by
    unfold deinterlaceRow; split <;> omega
  exact ⟨h1, h2, fun b hb =>
    ⟨row_byte_lt i height b _ hi hb,
     row_byte_lt _ height b _ h1 hb,
     row_byte_lt _ height b _ h2 hb⟩⟩

theorem C10_witness :
    interlaceRow 2 3 < 3 ∧ deinterlaceRow 1 2 3 < 3 ∧
    2 * (1 * 3) + 1 < 3 * (1 * 3) ∧
    interlaceRow 2 3 * (1 * 3) + 1 < 3 * (1 * 3) ∧
    deinterlaceRow 1 2 3 * (1 * 3) + 1 < 3 * (1 * 3) :=
  have h := C10_row_indices_in_bounds 1 3 2 1 (by decide)
  ⟨h.1, h.2.1, (h.2.2 1 (by decide)).1, (h.2.2 1 (by decide)).2.1,
   (h.2.2 1 (by decide)).2.2⟩

/-- Claim C6 as stated is false at height 3 with oddFirst 1: input row 1
should end up in output row 1 / 2 + 3 / 2 = 1, but the later iteration
for input row 2 also writes output row 1 and overwrites it, so the byte
found there comes from input row 2 (value 6), not input row 1 (value 3). -/
theorem C6_counterexample :
    deinterlace 1 (fun _ => 0) (fun k => k) 1 3 ((1 / 2 + 3 / 2) * (1 * 3) + 0) ≠
      (fun k => k) (1 * (1 * 3) + 0) := by decide

/-- Claim C6 (amended): for every width, every oddFirst in 0 or 1, every
height that is even or has oddFirst = 0, and distinct source and
destination buffers, deinterlace copies each input row i (a whole row of
width * 3 bytes) to output row i / 2 + height / 2 when i % 2 = oddFirst
and to output row i / 2 otherwise.  For odd height with oddFirst = 1 two
input rows target the same output row and the later copy wins, so the
claim is restricted to the collision-free cases. -/
theorem C6_deinterlace_row_copy (odd width height i b : Nat) (dst frm : Nat → Nat)
    (hodd : odd = 0 ∨ odd = 1) (hcase : height % 2 = 0 ∨ odd = 0)
    (hi : i < height) (hb : b < width * 3) :
    (i % 2 = odd →
      deinterlace odd dst frm width height ((i / 2 + height / 2) * (width * 3) + b) =
        frm (i * (width * 3) + b)) ∧
    (i % 2 ≠ odd →
      deinterlace odd dst frm width height (i / 2 * (width * 3) + b) =
        frm (i * (width * 3) + b)) := by
  have hlast : ∀ j, i < j → j < height →
      deinterlaceRow odd j height ≠ deinterlaceRow odd i height := by
    intro j hij hj heq
    have := deinterlaceRow_inj odd height j i hodd hcase hj hi heq
    omega
  have hread := deinterlaceAux_read odd dst frm (width * 3) height height i b hi hb hlast
  constructor
  · intro hpar
    have hrow : deinterlaceRow odd i height = i / 2 + height / 2 := by
      unfold deinterlaceRow; rw [if_pos hpar]
    rw [← hrow]
    exact hread
  · intro hpar
    have hrow : deinterlaceRow odd i height = i / 2 := by
      unfold deinterlaceRow; rw [if_neg hpar]
    rw [← hrow]
    exact hread

theorem C6_witness :
    (1 % 2 ≠ 0) ∧
    deinterlace 0 (fun _ => 0) (fun k => k) 1 2 (1 / 2 * (1 * 3) + 0) =
      (fun k => k) (1 * (1 * 3) + 0) :=
  ⟨by decide,
   (C6_deinterlace_row_copy 0 1 2 1 0 (fun _ => 0) (fun k => k)
     (Or.inl rfl) (Or.inr rfl) (by decide) (by decide)).2 (by decide)⟩

/-- Claim C1 as stated is false for oddFirst = 0: already at width 1 and
height 2, deinterlacing with oddFirst = 0 puts the even input row into
the second field and the odd input row into the first field, while
interlace reads the second field back into the odd output rows, so the
composition swaps the two rows and byte 0 of the result is 3 instead
of 0. -/
theorem C1_counterexample :
    interlace (fun _ => 0) (deinterlace 0 (fun _ => 0) (fun k => k) 1 2) 1 2 0 ≠
      (fun k => k) 0 := by decide

/-- Claim C1 (amended): for every width, every even height and every
buffer of height rows of width * 3 bytes, interlacing the result of
deinterlacing with oddFirst = 1 reproduces the buffer exactly, byte for
byte.  For oddFirst = 0 the composition instead swaps each even row with
the following odd row, so interlace is a left inverse of deinterlace only
for the field order oddFirst = 1. -/
theorem C1_interlace_deinterlace (width height : Nat) (hh : height % 2 = 0)
    (dst1 dst2 frm : Nat → Nat) (k : Nat) (hk : k < height * (width * 3)) :
    interlace dst2 (deinterlace 1 dst1 frm width height) width height k = frm k := by
  have hrs : 0 < width * 3 := by
    rcases Nat.eq_zero_or_pos (width * 3) with h0 | h
    · rw [h0, Nat.mul_zero] at hk; exact absurd hk (Nat.not_lt_zero k)
    · exact h
  have hk' : k < width * 3 * height := Nat.mul_comm height (width * 3) ▸ hk
  have hr : k / (width * 3) < height := Nat.div_lt_of_lt_mul hk'
  have hb : k % (width * 3) < width * 3 := Nat.mod_lt _ hrs
  have hlast : ∀ j, k / (width * 3) < j → j < height →
      deinterlaceRow 1 j height ≠ deinterlaceRow 1 (k / (width * 3)) height := by
    intro j hij hj heq
    have := deinterlaceRow_inj 1 height j (k / (width * 3))
      (Or.inr rfl) (Or.inl hh) hj hr heq
    omega
  have hd := deinterlaceAux_read 1 dst1 frm (width * 3) height height
    (k / (width * 3)) (k % (width * 3)) hr hb hlast
  have hil := interlaceAux_read dst2 (deinterlace 1 dst1 frm width height)
    (width * 3) height height (k / (width * 3)) (k % (width * 3)) hr hb
  have hrow : interlaceRow (k / (width * 3)) height =
      deinterlaceRow 1 (k / (width * 3)) height := rfl
  conv_lhs => rw [show k = k / (width * 3) * (width * 3) + k % (width * 3) from
    (Nat.div_add_mod' k (width * 3)).symm]
  show interlaceAux dst2 (deinterlace 1 dst1 frm width height) (width * 3) height height
    (k / (width * 3) * (width * 3) + k % (width * 3)) = frm k
  rw [hil, hrow]
  show deinterlaceAux 1 dst1 frm (width * 3) height height
    (deinterlaceRow 1 (k / (width * 3)) height * (width * 3) + k % (width * 3)) = frm k
  rw [hd, Nat.div_add_mod']

theorem C1_witness :
    2 % 2 = 0 ∧
    interlace (fun _ => 0) (deinterlace 1 (fun _ => 0) (fun k => k) 1 2) 1 2 3 =
      (fun k => k) 3 :=
  ⟨rfl, C1_interlace_deinterlace 1 2 rfl (fun _ => 0) (fun _ => 0) (fun k => k) 3
    (by decide)⟩

/-- Claim C4 as stated is false for the second source adapter of a
two-field decode: Decode_JPEG overwrites the shared counter with 0 right
after building the second adapter, so with buffer capacity 20, 10 bytes
remaining at the first teardown (hence capacity 10 for the second
adapter) and 4 bytes remaining at the second teardown, the counter holds
2 to the 64 minus 4 at that teardown, not 10 - 4. -/
theorem C4_counterexample :
    (Decode_JPEG_numbytes 20 10 4).2.2 ≠ (Decode_JPEG_numbytes 20 10 4).2.1 - 4 := by
  decide

/-- Claim C4 (amended): at the teardown of any adapter whose shared
counter is untouched between construction and teardown — every encode
destination adapter and the first decode source adapter — the counter
equals the wrapped buffer's capacity minus the bytes remaining, i.e.
exactly the bytes produced (encode) or consumed (decode).  The second
source adapter built during a two-field decode is excluded: Decode_JPEG
resets the counter to 0 right after constructing it, so its teardown
leaves 0 minus remaining modulo 2 to the 64 instead. -/
theorem C4_adapter_counter (cap rem : Nat) (hr : rem ≤ cap) (hc : cap < SIZE_T_MOD) :
    jpegmemdestmgr_term_destination_numbytes (jpegmemdestmgr_build_numbytes cap) rem =
      cap - rem ∧
    jpegmemsrcmgr_term_source_numbytes (jpegmemsrcmgr_build_numbytes cap) rem =
      cap - rem ∧
    ∀ b r1 r2, r1 ≤ b → b < SIZE_T_MOD → (Decode_JPEG_numbytes b r1 r2).1 = b - r1 := by
  refine ⟨sizetSub_of_le cap rem hr hc, sizetSub_of_le cap rem hr hc, ?_⟩
  intro b r1 r2 h1 h2
  exact sizetSub_of_le b r1 h1 h2

theorem C4_witness :
    (10 : Nat) ≤ 20 ∧ (20 : Nat) < SIZE_T_MOD ∧
    jpegmemdestmgr_term_destination_numbytes (jpegmemdestmgr_build_numbytes 20) 10 = 10 ∧
    jpegmemsrcmgr_term_source_numbytes (jpegmemsrcmgr_build_numbytes 20) 10 = 10 ∧
    (Decode_JPEG_numbytes 20 5 0).1 = 15 :=
  have h := C4_adapter_counter 20 10 (by decide) (by decide)
  ⟨by decide, by decide, h.1, h.2.1, h.2.2 20 5 0 (by decide) (by decide)⟩

/-- Claim C5: whenever the fill-when-exhausted handler runs with the
cursor at least 2 bytes into the input, it moves the cursor back 2 bytes,
overwrites those 2 bytes with 0xFF then 0xD9 (leaving every other byte
unchanged), sets the remaining count to 2, emits the recoverable warning
and returns success. -/
theorem C5_fill_input_buffer (s : jpeg_source_mgr) (h2 : 2 ≤ s.next_input_byte) :
    (jpegmemsrcmgr_fill_input_buffer s).1.next_input_byte = s.next_input_byte - 2 ∧
    (jpegmemsrcmgr_fill_input_buffer s).1.bytes_in_buffer = 2 ∧
    (jpegmemsrcmgr_fill_input_buffer s).1.buf (s.next_input_byte - 2) = 0xFF ∧
    (jpegmemsrcmgr_fill_input_buffer s).1.buf (s.next_input_byte - 1) = 0xD9 ∧
    (∀ k, k ≠ s.next_input_byte - 2 → k ≠ s.next_input_byte - 1 →
      (jpegmemsrcmgr_fill_input_buffer s).1.buf k = s.buf k) ∧
    (jpegmemsrcmgr_fill_input_buffer s).2.1 = true ∧
    (jpegmemsrcmgr_fill_input_buffer s).2.2 = true := by
  refine ⟨rfl, rfl, ?_, ?_, ?_, rfl, rfl⟩
  · show (if s.next_input_byte - 2 = s.next_input_byte - 2 + 1 then JPEG_EOI
        else if s.next_input_byte - 2 = s.next_input_byte - 2 then 0xFF
        else s.buf (s.next_input_byte - 2)) = 0xFF
    rw [if_neg (show ¬(s.next_input_byte - 2 = s.next_input_byte - 2 + 1) by omega),
      if_pos rfl]
  · show (if s.next_input_byte - 1 = s.next_input_byte - 2 + 1 then JPEG_EOI
        else if s.next_input_byte - 1 = s.next_input_byte - 2 then 0xFF
        else s.buf (s.next_input_byte - 1)) = 0xD9
    rw [if_pos (show s.next_input_byte - 1 = s.next_input_byte - 2 + 1 by omega)]
    rfl
  · intro k hk1 hk2
    show (if k = s.next_input_byte - 2 + 1 then JPEG_EOI
        else if k = s.next_input_byte - 2 then 0xFF
        else s.buf k) = s.buf k
    rw [if_neg (show ¬(k = s.next_input_byte - 2 + 1) by omega), if_neg hk1]

theorem C5_witness :
    (2 : Nat) ≤ 5 ∧
    (jpegmemsrcmgr_fill_input_buffer ⟨fun _ => 9, 5, 0⟩).1.next_input_byte = 3 ∧
    (jpegmemsrcmgr_fill_input_buffer ⟨fun _ => 9, 5, 0⟩).1.bytes_in_buffer = 2 ∧
    (jpegmemsrcmgr_fill_input_buffer ⟨fun _ => 9, 5, 0⟩).1.buf 3 = 0xFF ∧
    (jpegmemsrcmgr_fill_input_buffer ⟨fun _ => 9, 5, 0⟩).1.buf 4 = 0xD9 :=
  have h := C5_fill_input_buffer ⟨fun _ => 9, 5, 0⟩ (by decide)
  ⟨by decide, h.1, h.2.1, h.2.2.1, h.2.2.2.1⟩

/-- Claim C7 as stated is false for negative skip counts: requesting -1
with 5 bytes remaining advances the cursor by 5, because the comparison
against the size_t field bytes_in_buffer converts -1 to a huge unsigned
value and the request clamps to the whole remaining count, whereas
min(-1, 5) = -1. -/
theorem C7_counterexample :
    ¬((((jpegmemsrcmgr_skip_input_data 0 5 (-1)).1 : Int) - 0) = min (-1 : Int) 5) := by
  decide

/-- Claim C7 (amended): for every nonnegative requested count
representable in the codec's signed long type and every cursor/remaining
state, skip advances the cursor by exactly min(requested, remaining) and
decreases the remaining count by the same amount.  A negative request is
converted to a huge unsigned value by the comparison against
bytes_in_buffer and therefore clamps to the whole remaining count, not to
min(requested, remaining). -/
theorem C7_skip_input_data (cur rem : Nat) (c : Int) (h0 : 0 ≤ c) (h1 : c < 2 ^ 63) :
    jpegmemsrcmgr_skip_input_data cur rem c =
      (cur + min c.toNat rem, rem - min c.toNat rem) := by
  simp only [jpegmemsrcmgr_skip_input_data]
  have hlt : c < (SIZE_T_MOD : Int) := by
    unfold SIZE_T_MOD
    omega
  have hmod : c % (SIZE_T_MOD : Int) = c := Int.emod_eq_of_lt h0 hlt
  rw [hmod]
  by_cases h : rem < c.toNat
  · rw [if_pos h, Nat.min_eq_right (Nat.le_of_lt h)]
  · rw [if_neg h, Nat.min_eq_left (Nat.not_lt.mp h)]

theorem C7_witness :
    (0 : Int) ≤ 7 ∧ (7 : Int) < 2 ^ 63 ∧
    jpegmemsrcmgr_skip_input_data 10 5 7 =
      (10 + min (7 : Int).toNat 5, 5 - min (7 : Int).toNat 5) :=
  ⟨by decide, by decide, C7_skip_input_data 10 5 7 (by decide) (by decide)⟩

/-- Claim C2: Decode_JPEG returns 0 when the first embedded stream's
reported output height is at least the requested full-frame height, and
only builds one source adapter then; otherwise it builds a second source
adapter over the bytes past the first stream's consumed count (offset
bufsize - remaining, capacity remaining), performs a second decode pass
that appends the second field's rows immediately after the first field's
rows (the first field's bytes being left untouched), and returns 1. -/
theorem C2_Decode_JPEG (codec : Nat → Nat → JStreamInfo) (outBuffer : Nat → Nat)
    (width height bufsize : Nat) (s1 s2 : JStreamInfo) (c1 : Nat)
    (hs1 : s1 = codec 0 bufsize)
    (hrem : s1.remaining ≤ bufsize) (hbs : bufsize < SIZE_T_MOD)
    (hc1 : c1 = bufsize - s1.remaining)
    (hs2 : s2 = codec c1 s1.remaining) :
    (height ≤ s1.output_height →
      (Decode_JPEG codec outBuffer width height bufsize).2.1 = 0 ∧
      (Decode_JPEG codec outBuffer width height bufsize).2.2 = [(0, bufsize)]) ∧
    (s1.output_height < height →
      (Decode_JPEG codec outBuffer width height bufsize).2.1 = 1 ∧
      (Decode_JPEG codec outBuffer width height bufsize).2.2 =
        [(0, bufsize), (c1, s1.remaining)] ∧
      (∀ y b, y < s2.output_height →
        b < s2.output_width * s2.output_components →
        (Decode_JPEG codec outBuffer width height bufsize).1
          (s1.output_height * (s1.output_width * s1.output_components) +
            y * (s2.output_width * s2.output_components) + b) = s2.row y b) ∧
      (∀ k, k < s1.output_height * (s1.output_width * s1.output_components) →
        (Decode_JPEG codec outBuffer width height bufsize).1 k =
          writeScanlines outBuffer 0 (s1.output_width * s1.output_components)
            s1.row s1.output_height k)) := by
  subst hs1 hc1 hs2
  have hn1 : sizetSub bufsize (codec 0 bufsize).remaining =
      bufsize - (codec 0 bufsize).remaining :=
    sizetSub_of_le _ _ hrem hbs
  have hn2 : sizetSub bufsize (bufsize - (codec 0 bufsize).remaining) =
      (codec 0 bufsize).remaining := by
    rw [sizetSub_of_le _ _ (Nat.sub_le _ _) hbs]
    exact Nat.sub_sub_self hrem
  constructor
  · intro h
    simp only [Decode_JPEG]
    rw [if_pos h]
    exact ⟨rfl, rfl⟩
  · intro h
    have hcond : ¬(height ≤ (codec 0 bufsize).output_height) := Nat.not_le.mpr h
    simp only [Decode_JPEG]
    rw [if_neg hcond, hn1, hn2]
    refine ⟨rfl, rfl, ?_, ?_⟩
    · intro y b hy hb
      exact writeScanlines_read _ _ _ _ _ y b hy hb
    · intro k hk
      exact writeScanlines_lower _ _ _ _ _ k hk

theorem C2_witness :
    (testCodec 0 10).output_height < 2 ∧
    (Decode_JPEG testCodec (fun _ => 0) 1 2 10).2.1 = 1 ∧
    (Decode_JPEG testCodec (fun _ => 0) 1 2 10).2.2 = [(0, 10), (6, 4)] ∧
    (Decode_JPEG testCodec (fun _ => 0) 1 2 10).1 3 = 200 :=
  have h := (C2_Decode_JPEG testCodec (fun _ => 0) 1 2 10
    (testCodec 0 10) (testCodec 6 4) 6 rfl (by decide) (by decide) (by decide) rfl).2
    (by decide)
  ⟨by decide, h.1, h.2.1, h.2.2.1 0 0 (by decide) (by decide)⟩

/-- Claim C3: for an interlaced frame the encode entry point deinterlaces
the source pixel buffer into field-split layout, invokes Compress_JPEG
once for the first Height / 2 rows writing at offset 0 of the destination
with capacity bufsize / 2, snapshots the n1 bytes produced, invokes it
again for the remaining Height / 2 rows (input offset Height / 2 * Width
* 3 of the field buffer) writing at offset n1, and stores n1 + n2 into
the in/out size parameter. -/
theorem C3_to_mjpeg_interlaced (comp : CompressCall → Nat) (W H Q odd bufsize : Nat)
    (buffer buf : Nat → Nat) (c1 c2 : CompressCall) (n1 n2 : Nat)
    (hc1 : c1 = ⟨Q / 100, 0, 0, W, H / 2, bufsize / 2⟩)
    (hn1 : n1 = bufsize / 2 - comp c1)
    (hc2 : c2 = ⟨Q / 100, n1, H / 2 * W * 3, W, H / 2, bufsize / 2⟩)
    (hn2 : n2 = bufsize / 2 - comp c2)
    (hf1 : comp c1 ≤ bufsize / 2) (hf2 : comp c2 ≤ bufsize / 2)
    (hbs : bufsize < SIZE_T_MOD) :
    avi_converter_to_mjpeg comp W H Q odd true bufsize buffer buf =
      (n1 + n2, [c1, c2], deinterlace odd buf buffer W H) := by
  subst hc1 hn1 hc2 hn2
  have hhalf : bufsize / 2 < SIZE_T_MOD := Nat.lt_of_le_of_lt (Nat.div_le_self _ _) hbs
  simp only [avi_converter_to_mjpeg, jpegmemdestmgr_term_destination_numbytes,
    jpegmemdestmgr_build_numbytes]
  rw [if_neg (show ¬((!true) = true) by decide)]
  rw [sizetSub_of_le _ _ hf1 hhalf, sizetSub_of_le _ _ hf2 hhalf]

theorem C3_witness :
    avi_converter_to_mjpeg testComp 1 2 150 0 true 10 (fun _ => 0) (fun _ => 0) =
      (10, [(⟨1, 0, 0, 1, 1, 5⟩ : CompressCall), (⟨1, 5, 3, 1, 1, 5⟩ : CompressCall)],
        deinterlace 0 (fun _ => 0) (fun _ => 0) 1 2) :=
  C3_to_mjpeg_interlaced testComp 1 2 150 0 10 (fun _ => 0) (fun _ => 0)
    ⟨1, 0, 0, 1, 1, 5⟩ ⟨1, 5, 3, 1, 1, 5⟩ 5 5
    rfl rfl rfl rfl (by decide) (by decide) (by decide)

/-- Claim C8: the operation trace of Compress_JPEG places, immediately
after compression is started, a 60-byte application marker whose first
five bytes are the ASCII codes of A, V, I, 1 and a terminating 0 followed
by 55 space (32) bytes, then a 60-byte comment marker of all zero
bytes. -/
theorem C8_markers (quality width height : Nat) :
    ∃ rest,
      Compress_JPEG_ops quality width height =
        JpegOp.startCompress ::
        JpegOp.writeMarker JPEG_APP0 avi1_marker ::
        JpegOp.writeMarker JPEG_COM com_marker :: rest ∧
      avi1_marker.length = 60 ∧
      avi1_marker.take 5 = [65, 86, 73, 49, 0] ∧
      avi1_marker.drop 5 = List.replicate 55 32 ∧
      com_marker.length = 60 ∧
      com_marker = List.replicate 60 0 :=
  ⟨(List.range height).map (fun y => JpegOp.writeScanline (y * (width * 3)))
      ++ [JpegOp.finishCompress],
   rfl, by decide, by decide, by decide, by decide, rfl⟩

/-- Claim C9: every Compress_JPEG invocation made by the encode entry
point, in the progressive branch as well as both per-field invocations of
the interlaced branch, passes quality Q / 100 where Q is the descriptor
quality and the division is truncating Nat division. -/
theorem C9_quality (comp : CompressCall → Nat) (W H Q odd : Nat) (il : Bool)
    (bufsize : Nat) (buffer buf : Nat → Nat) :
    ∀ c ∈ (avi_converter_to_mjpeg comp W H Q odd il bufsize buffer buf).2.1,
      c.quality = Q / 100 := by
  intro c hc
  cases il
  · simp [avi_converter_to_mjpeg] at hc
    subst hc
    rfl
  · simp [avi_converter_to_mjpeg] at hc
    rcases hc with rfl | rfl <;> rfl

theorem C9_witness :
    (⟨150 / 100, 0, 0, 1, 1, 5⟩ : CompressCall) ∈
      (avi_converter_to_mjpeg testComp 1 2 150 0 true 10 (fun _ => 0) (fun _ => 0)).2.1 ∧
    (⟨150 / 100, 0, 0, 1, 1, 5⟩ : CompressCall).quality = 150 / 100 :=
  have hm : (⟨150 / 100, 0, 0, 1, 1, 5⟩ : CompressCall) ∈
      (avi_converter_to_mjpeg testComp 1 2 150 0 true 10 (fun _ => 0) (fun _ => 0)).2.1 :=
    by decide
  ⟨hm, C9_quality testComp 1 2 150 0 true 10 (fun _ => 0) (fun _ => 0) _ hm⟩

end AviMjpeg
